import Mathlib

/-!
Shallow embedding of `src/adaptiveai/adaptiveai.py` (the AdaptiveAI cog).

The per-guild persisted state is `{api_keys, current_key_index}`; the
per-channel message history is a deque of formatted lines.  The backend
(`client.chat.complete`) is modelled as an oracle mapping the attempt
number and the credential passed to it to either a textual completion or
an error message; all other stateful collaborators (Discord, the Red
config store) are threaded explicitly.
-/

/-- Per-guild persisted configuration: the ordered API-key pool and the
current key index (`default_guild` in `__init__`). -/
structure GuildConfig where
  api_keys : List String
  current_key_index : Nat
  deriving Repr, DecidableEq

/-- Result of one backend call: a textual completion or an exception
with a human-readable message. -/
inductive CallResult where
  | ok (content : String)
  | err (msg : String)
  deriving Repr, DecidableEq

/-- Lowercases a string character by character, as Python `str.lower()`
does on the ASCII error messages involved. -/
def lowerStr (s : String) : String :=
  String.mk (s.data.map Char.toLower)

/-- `needle` occurs as a contiguous sublist of the character list. -/
def listContainsSub (needle : List Char) : List Char → Bool
  | [] => needle.isEmpty
  | c :: rest => needle.isPrefixOf (c :: rest) || listContainsSub needle rest

/-- Python's `needle in haystack` substring test. -/
def containsSub (haystack needle : String) : Bool :=
  listContainsSub needle.data haystack.data

/-- The failure classifier of `generate_response`:
`error_msg = str(e).lower()` followed by
`"rate" in error_msg or "limit" in error_msg or "quota" in error_msg`. -/
def isRateLimited (errMsg : String) : Bool :=
  let m := lowerStr errMsg
  containsSub m "rate" || containsSub m "limit" || containsSub m "quota"

/-- `get_current_api_key`: `none` on an empty pool; clamps (and persists)
`current_key_index` to 0 when it is out of range; otherwise returns the
key at `current_key_index`.  Returns the possibly-updated config
alongside the result. -/
def get_current_api_key (cfg : GuildConfig) : Option String × GuildConfig :=
  if cfg.api_keys.isEmpty then (none, cfg)
  else if cfg.api_keys.length ≤ cfg.current_key_index then
    (cfg.api_keys[0]?, { cfg with current_key_index := 0 })
  else
    (cfg.api_keys[cfg.current_key_index]?, cfg)

/-- `switch_to_next_key`: returns `false` (no mutation) when fewer than
two keys exist; otherwise advances `current_key_index` to
`(current_key_index + 1) % len(keys)` and persists it. -/
def switch_to_next_key (cfg : GuildConfig) : Bool × GuildConfig :=
  if cfg.api_keys.length ≤ 1 then (false, cfg)
  else
    (true, { cfg with
      current_key_index := (cfg.current_key_index + 1) % cfg.api_keys.length })

/-- The state transformer of one `switch_to_next_key` call. -/
def rotateState (cfg : GuildConfig) : GuildConfig :=
  (switch_to_next_key cfg).2

/-- One channel's history cell: `none` when the channel is not yet in
`self.message_history`, otherwise the deque contents (oldest first). -/
def add_message_to_history (hist : Option (List String))
    (author content : String) : List String :=
  let q := hist.getD []
  let q1 := q ++ [author ++ ": " ++ content]
  if 50 < q1.length then q1.tail else q1

/-- `get_channel_context`: the sentinel when the channel has no history
entry, otherwise the last 30 deque entries joined by newlines. -/
def get_channel_context (hist : Option (List String)) : String :=
  match hist with
  | none => "No previous messages available."
  | some messages =>
    String.intercalate "\n" (messages.drop (messages.length - 30))

/-- Runs a sequence of `(author, content)` appends against an initially
absent history cell. -/
def appendAll (pairs : List (String × String)) : Option (List String) :=
  pairs.foldl (fun h p => some (add_message_to_history h p.1 p.2)) none

/-- The history line `f"{author}: {content}"`. -/
def fmtEntry (p : String × String) : String :=
  p.1 ++ ": " ++ p.2

/-- The return site `generate_response` exited through. -/
inductive Outcome where
  | success
  | fatal
  | exhausted
  | noKey
  deriving Repr, DecidableEq

/-- Observable result of one `generate_response` call: the returned
text, which return statement produced it, the credentials passed to the
backend in order, how many times `switch_to_next_key` advanced the
index, and the final persisted config. -/
structure GenResult where
  text : String
  outcome : Outcome
  attempts : List String
  rotations : Nat
  final : GuildConfig
  deriving Repr, DecidableEq

/-- `"❌ No API key configured! Use `/aiaddkey` to set one up."` -/
def noKeyMsg : String :=
  "❌ No API key configured! Use `/aiaddkey` to set one up."

/-- `f"❌ Error generating AI response: {str(e)}"` -/
def fatalMsg (e : String) : String :=
  "❌ Error generating AI response: " ++ e

/-- The post-loop message of `generate_response`. -/
def exhaustedMsg : String :=
  "❌ All API keys have reached their limit. Please try again later."

/-- The `while retry_count < len(max_retries)` loop of
`generate_response`.  `fuel = len(max_retries) - retry_count` is the
number of loop iterations still permitted; `attemptIdx` numbers the
backend calls made so far (it feeds the oracle); `api_key` is the local
variable of the same name.  Each iteration calls the backend; on
success the completion is returned unmodified; on an error classified
as rate/limit/quota the key is rotated and, if rotation succeeded, the
current key is re-read and the loop retries with `retry_count + 1`;
any other path returns the fatal message. -/
def generate_loop (backend : Nat → String → CallResult) :
    Nat → Nat → String → GuildConfig → List String → Nat → GenResult
  | 0, _, _, cfg, attempts, rotations =>
    ⟨exhaustedMsg, .exhausted, attempts, rotations, cfg⟩
  | fuel + 1, attemptIdx, api_key, cfg, attempts, rotations =>
    match backend attemptIdx api_key with
    | .ok content =>
      ⟨content, .success, attempts ++ [api_key], rotations, cfg⟩
    | .err e =>
      if isRateLimited e then
        let sw := switch_to_next_key cfg
        if sw.1 then
          let g := get_current_api_key sw.2
          generate_loop backend fuel (attemptIdx + 1) (g.1.getD "") g.2
            (attempts ++ [api_key]) (rotations + 1)
        else
          ⟨fatalMsg e, .fatal, attempts ++ [api_key], rotations, sw.2⟩
      else
        ⟨fatalMsg e, .fatal, attempts ++ [api_key], rotations, cfg⟩

/-- `generate_response`: reads the current key (`if not api_key` also
rejects an empty-string key, Python falsiness), then runs the retry
loop with bound `len(max_retries)` where `max_retries` is the key list
read before the loop. -/
def generate_response (backend : Nat → String → CallResult)
    (cfg : GuildConfig) : GenResult :=
  let g := get_current_api_key cfg
  match g.1 with
  | none => ⟨noKeyMsg, .noKey, [], 0, g.2⟩
  | some k =>
    if k = "" then ⟨noKeyMsg, .noKey, [], 0, g.2⟩
    else generate_loop backend g.2.api_keys.length 0 k g.2 [] 0

/-- Outcome of the `aiaddkey` command body. -/
inductive AddResult where
  | capacityExceeded
  | duplicate
  | added
  deriving Repr, DecidableEq

/-- `add_api_key`: rejects when 8 keys already exist, rejects a
duplicate, otherwise appends and persists. -/
def add_api_key (keys : List String) (api_key : String) :
    AddResult × List String :=
  if 8 ≤ keys.length then (.capacityExceeded, keys)
  else if api_key ∈ keys then (.duplicate, keys)
  else (.added, keys ++ [api_key])

/-- Folds a sequence of `aiaddkey` calls over a starting key list,
keeping only the persisted list. -/
def addAll (keys : List String) (ks : List String) : List String :=
  ks.foldl (fun acc k => (add_api_key acc k).2) keys

/-- Outcome of the `airemovekey` command body. -/
inductive RemoveResult where
  | invalidPosition
  | removed
  deriving Repr, DecidableEq

/-- `remove_api_key`: rejects a 1-based position outside `[1, len]`,
otherwise pops the key at `key_number - 1` and, when `current_key_index`
now points past the end of a still non-empty list, resets it to 0. -/
def remove_api_key (cfg : GuildConfig) (key_number : Int) :
    RemoveResult × GuildConfig :=
  if key_number < 1 ∨ (cfg.api_keys.length : Int) < key_number then
    (.invalidPosition, cfg)
  else
    let keys1 := cfg.api_keys.eraseIdx (key_number - 1).toNat
    let idx1 :=
      if keys1.length ≤ cfg.current_key_index ∧ 0 < keys1.length then 0
      else cfg.current_key_index
    (.removed, { api_keys := keys1, current_key_index := idx1 })

/-- Rotation never changes the key list. -/
lemma rotateState_api_keys (cfg : GuildConfig) :
    (rotateState cfg).api_keys = cfg.api_keys := by
  unfold rotateState switch_to_next_key
  split <;> rfl

/-- With at least two keys, `m` rotations land on
`(current_key_index + m) % len`. -/
lemma rotateState_iterate (cfg : GuildConfig)
    (h2 : 2 ≤ cfg.api_keys.length)
    (hi : cfg.current_key_index < cfg.api_keys.length) (m : Nat) :
    rotateState^[m] cfg =
      ⟨cfg.api_keys, (cfg.current_key_index + m) % cfg.api_keys.length⟩ := by
  induction m with
  | zero =>
    simp [Nat.mod_eq_of_lt hi]
  | succ m ih =>
    rw [Function.iterate_succ_apply', ih]
    unfold rotateState switch_to_next_key
    have : ¬ cfg.api_keys.length ≤ 1 := by omega
    simp only [this, if_false]
    simp [Nat.mod_add_mod, Nat.add_assoc]

/-- **C4.** With an empty key pool, `generate_response` returns the
no-key message through the `noKey` return site, makes no backend call
(`attempts = []`), performs no rotation, and leaves the config
untouched. -/
theorem C4_empty_pool_no_call (backend : Nat → String → CallResult)
    (cfg : GuildConfig) (h : cfg.api_keys = []) :
    generate_response backend cfg = ⟨noKeyMsg, .noKey, [], 0, cfg⟩ := by
  simp [generate_response, get_current_api_key, h]

/-- Witness for C4 at a concrete empty-pool config. -/
theorem C4_empty_pool_no_call_witness :
    generate_response (fun _ _ => .ok "hi") ⟨[], 3⟩ =
      ⟨noKeyMsg, .noKey, [], 0, ⟨[], 3⟩⟩ :=
  C4_empty_pool_no_call (fun _ _ => .ok "hi") ⟨[], 3⟩ rfl

/-- **C6.** `get_current_api_key` returns `none` on an empty pool; with
`current_key_index` in range it returns the key at that index and does
not write; with `current_key_index` out of range on a non-empty pool it
persists a clamp to 0 and returns the key at index 0. -/
theorem C6_current_key_clamp (cfg : GuildConfig) :
    (cfg.api_keys = [] → get_current_api_key cfg = (none, cfg)) ∧
    (cfg.current_key_index < cfg.api_keys.length →
      get_current_api_key cfg =
        (cfg.api_keys[cfg.current_key_index]?, cfg) ∧
      (cfg.api_keys[cfg.current_key_index]?).isSome) ∧
    (cfg.api_keys ≠ [] → cfg.api_keys.length ≤ cfg.current_key_index →
      get_current_api_key cfg =
        (cfg.api_keys[0]?, { cfg with current_key_index := 0 }) ∧
      (cfg.api_keys[0]?).isSome) := by
  refine ⟨fun h => ?_, fun h => ?_, fun h1 h2 => ?_⟩
  · simp [get_current_api_key, h]
  · have hne : ¬ cfg.api_keys.isEmpty := by
      simp [List.isEmpty_iff]
      intro hc
      simp [hc] at h
    simp [get_current_api_key, hne, Nat.not_le.mpr h,
      List.getElem?_eq_getElem h]
  · have hne : ¬ cfg.api_keys.isEmpty := by simp [List.isEmpty_iff, h1]
    have hpos : 0 < cfg.api_keys.length := List.length_pos.mpr h1
    simp [get_current_api_key, hne, h2, List.getElem?_eq_getElem hpos]

/-- Witness for C6 on a pool of two keys with an out-of-range index. -/
theorem C6_current_key_clamp_witness :
    get_current_api_key ⟨["a", "b"], 5⟩ = (some "a", ⟨["a", "b"], 0⟩) := by
  have h := (C6_current_key_clamp ⟨["a", "b"], 5⟩).2.2
    (by decide) (by decide)
  simpa using h.1

/-- **C7.** `switch_to_next_key` with fewer than two keys returns
`false` and leaves the config unchanged; with `k ≥ 2` keys it advances
`current_key_index` to `(current_key_index + 1) % k` and persists it,
and `k` successive rotations restore the original config. -/
theorem C7_rotate_round_robin (cfg : GuildConfig) (k : Nat) :
    (cfg.api_keys.length < 2 → switch_to_next_key cfg = (false, cfg)) ∧
    (2 ≤ cfg.api_keys.length →
      switch_to_next_key cfg = (true, { cfg with
        current_key_index :=
          (cfg.current_key_index + 1) % cfg.api_keys.length })) ∧
    (cfg.api_keys.length = k → 2 ≤ k →
      cfg.current_key_index < k → rotateState^[k] cfg = cfg) := by
  refine ⟨fun h => ?_, fun h => ?_, fun hk h2 hi => ?_⟩
  · simp [switch_to_next_key, Nat.lt_succ_iff.mp h]
  · simp [switch_to_next_key, Nat.not_le.mpr (Nat.lt_of_lt_of_le Nat.one_lt_two h)]
  · rw [rotateState_iterate cfg (hk ▸ h2) (hk ▸ hi), hk]
    rw [Nat.add_mod_right, Nat.mod_eq_of_lt hi]

/-- Witness for C7: one-key pool refuses to rotate; a three-key pool
rotates round-robin and returns after three rotations. -/
theorem C7_rotate_round_robin_witness :
    switch_to_next_key ⟨["a"], 0⟩ = (false, ⟨["a"], 0⟩) ∧
    switch_to_next_key ⟨["a", "b", "c"], 2⟩ = (true, ⟨["a", "b", "c"], 0⟩) ∧
    rotateState^[3] ⟨["a", "b", "c"], 1⟩ = ⟨["a", "b", "c"], 1⟩ := by
  refine ⟨(C7_rotate_round_robin ⟨["a"], 0⟩ 0).1 (by decide), ?_, ?_⟩
  · have h := (C7_rotate_round_robin ⟨["a", "b", "c"], 2⟩ 0).2.1 (by decide)
    simpa using h
  · exact (C7_rotate_round_robin ⟨["a", "b", "c"], 1⟩ 3).2.2 rfl
      (by decide) (by decide)

/-- One `aiaddkey` call preserves "at most 8 keys, no duplicates". -/
lemma add_api_key_preserves (keys : List String) (k : String)
    (hlen : keys.length ≤ 8) (hnd : keys.Nodup) :
    (add_api_key keys k).2.length ≤ 8 ∧ (add_api_key keys k).2.Nodup := by
  unfold add_api_key
  by_cases hc : 8 ≤ keys.length
  · simp [hc, hlen, hnd]
  · simp only [hc, if_false]
    by_cases hd : k ∈ keys
    · simp [hd, hlen, hnd]
    · simp only [hd, if_false]
      refine ⟨by simp; omega, ?_⟩
      simp [List.nodup_append, hnd, hd]

/-- Any `aiaddkey` sequence starting from a valid pool keeps it valid. -/
lemma addAll_preserves (ks : List String) (keys : List String)
    (hlen : keys.length ≤ 8) (hnd : keys.Nodup) :
    (addAll keys ks).length ≤ 8 ∧ (addAll keys ks).Nodup := by
  induction ks generalizing keys with
  | nil => exact ⟨hlen, hnd⟩
  | cons k ks ih =>
    have h := add_api_key_preserves keys k hlen hnd
    simpa [addAll, List.foldl_cons] using ih (add_api_key keys k).2 h.1 h.2

/-- **C8.** `aiaddkey` rejects a 9th key with `CapacityExceeded`,
rejects a key already present (capacity permitting) with `Duplicate`,
and otherwise appends at the end; starting from the empty default pool,
any sequence of adds keeps the pool at ≤ 8 keys with no duplicates. -/
theorem C8_add_key_contract (keys : List String) (k : String)
    (ks : List String) :
    (8 ≤ keys.length → add_api_key keys k = (.capacityExceeded, keys)) ∧
    (keys.length < 8 → k ∈ keys → add_api_key keys k = (.duplicate, keys)) ∧
    (keys.length < 8 → k ∉ keys →
      add_api_key keys k = (.added, keys ++ [k])) ∧
    ((addAll [] ks).length ≤ 8 ∧ (addAll [] ks).Nodup) := by
  refine ⟨fun h => ?_, fun h1 h2 => ?_, fun h1 h2 => ?_, ?_⟩
  · simp [add_api_key, h]
  · simp [add_api_key, Nat.not_le.mpr h1, h2]
  · simp [add_api_key, Nat.not_le.mpr h1, h2]
  · exact addAll_preserves ks [] (by simp) List.nodup_nil

/-- Witness for C8: a full pool rejects, a duplicate rejects, a fresh
key appends, and an over-long add sequence still respects the bound. -/
theorem C8_add_key_contract_witness :
    add_api_key ["1", "2", "3", "4", "5", "6", "7", "8"] "9" =
      (.capacityExceeded, ["1", "2", "3", "4", "5", "6", "7", "8"]) ∧
    add_api_key ["1", "2"] "2" = (.duplicate, ["1", "2"]) ∧
    add_api_key ["1", "2"] "3" = (.added, ["1", "2", "3"]) ∧
    ((addAll [] ["1", "1", "2", "3", "4", "5", "6", "7", "8", "9"]).length ≤ 8 ∧
      (addAll [] ["1", "1", "2", "3", "4", "5", "6", "7", "8", "9"]).Nodup) := by
  refine ⟨(C8_add_key_contract ["1", "2", "3", "4", "5", "6", "7", "8"] "9"
      []).1 (by decide), ?_, ?_,
    (C8_add_key_contract [] ""
      ["1", "1", "2", "3", "4", "5", "6", "7", "8", "9"]).2.2.2⟩
  · exact (C8_add_key_contract ["1", "2"] "2" []).2.1 (by decide) (by decide)
  · exact (C8_add_key_contract ["1", "2"] "3" []).2.2.1 (by decide) (by decide)

/-- Unfolding of `remove_api_key` on an in-range position. -/
lemma remove_api_key_eq (cfg : GuildConfig) (p : Int)
    (h1 : 1 ≤ p) (h2 : p ≤ (cfg.api_keys.length : Int)) :
    remove_api_key cfg p =
      (.removed,
        { api_keys := cfg.api_keys.eraseIdx (p - 1).toNat,
          current_key_index :=
            if (cfg.api_keys.eraseIdx (p - 1).toNat).length ≤
                  cfg.current_key_index ∧
                0 < (cfg.api_keys.eraseIdx (p - 1).toNat).length
            then 0 else cfg.current_key_index }) := by
  have hcond : ¬ (p < 1 ∨ (cfg.api_keys.length : Int) < p) := by omega
  simp only [remove_api_key, if_neg hcond]

/-- **C9.** `airemovekey` rejects any 1-based position outside
`[1, len]` without mutating; for a position in range it removes that
key; when the remaining keys are non-empty and `current_key_index`
would point past the new end it is reset to exactly 0, otherwise it is
left unchanged, so whenever keys remain the persisted
`current_key_index` is in range — never dangling. -/
theorem C9_remove_key_contract (cfg : GuildConfig) (p : Int) :
    ((p < 1 ∨ (cfg.api_keys.length : Int) < p) →
      remove_api_key cfg p = (.invalidPosition, cfg)) ∧
    (1 ≤ p → p ≤ (cfg.api_keys.length : Int) →
      (remove_api_key cfg p).1 = .removed ∧
      (remove_api_key cfg p).2.api_keys =
        cfg.api_keys.eraseIdx (p - 1).toNat ∧
      (remove_api_key cfg p).2.api_keys.length = cfg.api_keys.length - 1 ∧
      ((remove_api_key cfg p).2.api_keys ≠ [] →
        (cfg.api_keys.eraseIdx (p - 1).toNat).length ≤
          cfg.current_key_index →
        (remove_api_key cfg p).2.current_key_index = 0) ∧
      (cfg.current_key_index <
          (cfg.api_keys.eraseIdx (p - 1).toNat).length →
        (remove_api_key cfg p).2.current_key_index =
          cfg.current_key_index) ∧
      ((remove_api_key cfg p).2.api_keys ≠ [] →
        (remove_api_key cfg p).2.current_key_index <
          (remove_api_key cfg p).2.api_keys.length)) := by
  constructor
  · intro h
    simp only [remove_api_key, if_pos h]
  · intro h1 h2
    have heq := remove_api_key_eq cfg p h1 h2
    have hidx : (p - 1).toNat < cfg.api_keys.length := by omega
    have hlen := List.length_eraseIdx_add_one hidx
    rw [heq]
    refine ⟨rfl, rfl, by dsimp only; omega, ?_, ?_, ?_⟩
    · intro hne hpast
      dsimp only at hne ⊢
      have hpos := List.length_pos.mpr hne
      split <;> omega
    · intro hlt
      dsimp only
      split <;> omega
    · intro hne
      dsimp only at hne ⊢
      have hpos := List.length_pos.mpr hne
      split <;> omega

/-- Witness for C9: removing position 3 of 3 while the index points at
it resets the index to exactly 0; removing position 1 with the index on
a surviving slot leaves the index unchanged; position 0 is rejected. -/
theorem C9_remove_key_contract_witness :
    remove_api_key ⟨["a", "b"], 0⟩ 0 = (.invalidPosition, ⟨["a", "b"], 0⟩) ∧
    (remove_api_key ⟨["a", "b", "c"], 2⟩ 3).1 = .removed ∧
    (remove_api_key ⟨["a", "b", "c"], 2⟩ 3).2.api_keys = ["a", "b"] ∧
    (remove_api_key ⟨["a", "b", "c"], 2⟩ 3).2.current_key_index = 0 ∧
    (remove_api_key ⟨["a", "b", "c"], 1⟩ 1).2.current_key_index = 1 := by
  have h := (C9_remove_key_contract ⟨["a", "b", "c"], 2⟩ 3).2
    (by decide) (by decide)
  have h1 := (C9_remove_key_contract ⟨["a", "b", "c"], 1⟩ 1).2
    (by decide) (by decide)
  refine ⟨(C9_remove_key_contract ⟨["a", "b"], 0⟩ 0).1 (by omega),
    h.1, by simpa using h.2.1, ?_, ?_⟩
  · exact h.2.2.2.1 (by simp [h.2.1]) (by decide)
  · exact h1.2.2.2.2.1 (by decide)

/-- While the deque stays within capacity, folding appends over a
present cell just concatenates the formatted lines. -/
lemma history_foldl_eq (pairs : List (String × String)) :
    ∀ acc : List String, acc.length + pairs.length ≤ 50 →
    pairs.foldl (fun h p => some (add_message_to_history h p.1 p.2))
        (some acc) = some (acc ++ pairs.map fmtEntry) := by
  induction pairs with
  | nil => intro acc _; simp
  | cons p ps ih =>
    intro acc hle
    have hstep : add_message_to_history (some acc) p.1 p.2 =
        acc ++ [fmtEntry p] := by
      have hc : ¬ 50 < acc.length + 1 := by
        simp only [List.length_cons] at hle
        omega
      simp [add_message_to_history, fmtEntry, hc]
    rw [List.foldl_cons, hstep,
      ih (acc ++ [fmtEntry p]) (by simp at hle ⊢; omega)]
    simp

/-- A non-empty append sequence of at most 50 entries leaves exactly
the formatted lines in the cell, oldest first. -/
lemma appendAll_eq (pairs : List (String × String))
    (h50 : pairs.length ≤ 50) (hne : pairs ≠ []) :
    appendAll pairs = some (pairs.map fmtEntry) := by
  match pairs, hne with
  | p :: ps, _ =>
    unfold appendAll
    rw [List.foldl_cons]
    have hstep : add_message_to_history none p.1 p.2 = [fmtEntry p] := by
      simp [add_message_to_history, fmtEntry]
    rw [hstep, history_foldl_eq ps [fmtEntry p]
      (by simp only [List.length_cons] at h50; simp; omega)]
    simp

/-- **C5.** After `n ≤ 50` appends to one channel,
`get_channel_context` returns the last `min 30 n` formatted
`"author: content"` lines, newline-joined and oldest first; with no
appends it returns the non-empty "no history" sentinel. -/
theorem C5_context_window (pairs : List (String × String))
    (h50 : pairs.length ≤ 50) :
    (pairs ≠ [] →
      get_channel_context (appendAll pairs) =
        String.intercalate "\n"
          ((pairs.map fmtEntry).drop (pairs.length - 30))) ∧
    ((pairs.map fmtEntry).drop (pairs.length - 30)).length =
      min 30 pairs.length ∧
    (pairs.map fmtEntry) =
      (pairs.map fmtEntry).take (pairs.length - 30) ++
        (pairs.map fmtEntry).drop (pairs.length - 30) ∧
    (pairs = [] →
      get_channel_context (appendAll pairs) =
        "No previous messages available." ∧
      get_channel_context (appendAll pairs) ≠ "") := by
  refine ⟨fun hne => ?_, ?_, by rw [List.take_append_drop], fun hemp => ?_⟩
  · rw [appendAll_eq pairs h50 hne]
    simp [get_channel_context]
  · simp only [List.length_drop, List.length_map]
    omega
  · subst hemp
    refine ⟨rfl, by decide⟩

/-- Witness for C5 on a two-message history and the empty history. -/
theorem C5_context_window_witness :
    get_channel_context (appendAll [("u", "hi"), ("v", "yo")]) =
      "u: hi\nv: yo" ∧
    get_channel_context (appendAll []) = "No previous messages available." := by
  have h := C5_context_window [("u", "hi"), ("v", "yo")] (by decide)
  have h0 := C5_context_window [] (by decide)
  refine ⟨?_, (h0.2.2.2 rfl).1⟩
  rw [h.1 (by decide)]
  decide

/-- The key the pool serves at (wrapped) index `i`. -/
def keyAt (L : List String) (i : Nat) : String :=
  L.getD (i % L.length) ""

/-- `keyAt` only depends on the index modulo the pool size. -/
lemma keyAt_add_mod (L : List String) (i j : Nat) :
    keyAt L (i % L.length + j) = keyAt L (i + j) := by
  unfold keyAt
  rw [Nat.mod_add_mod]

/-- In range, `keyAt` is plain indexing. -/
lemma getElem?_eq_keyAt (L : List String) (i : Nat) (h : i < L.length) :
    L[i]? = some (keyAt L i) := by
  rw [List.getElem?_eq_getElem h]
  unfold keyAt
  rw [Nat.mod_eq_of_lt h, List.getD_eq_getElem _ _ h]

/-- `get_current_api_key` on a non-empty pool: some in-range index `i`
(the stored one, or 0 after the clamp) is persisted and its key
returned. -/
lemma get_current_api_key_spec (cfg : GuildConfig)
    (hne : cfg.api_keys ≠ []) :
    ∃ i, i < cfg.api_keys.length ∧
      get_current_api_key cfg =
        (some (keyAt cfg.api_keys i), ⟨cfg.api_keys, i⟩) := by
  have hempty : ¬ cfg.api_keys.isEmpty := by simp [List.isEmpty_iff, hne]
  have hpos : 0 < cfg.api_keys.length := List.length_pos.mpr hne
  by_cases h : cfg.api_keys.length ≤ cfg.current_key_index
  · exact ⟨0, hpos, by
      simp [get_current_api_key, hempty, h, getElem?_eq_keyAt _ _ hpos]⟩
  · exact ⟨cfg.current_key_index, Nat.not_le.mp h, by
      simp [get_current_api_key, hempty, h,
        getElem?_eq_keyAt _ _ (Nat.not_le.mp h)]⟩

/-- With at least two keys, a successful switch advances the stored
index by one modulo the pool size. -/
lemma switch_to_next_key_eq (cfg : GuildConfig)
    (h : 2 ≤ cfg.api_keys.length) :
    switch_to_next_key cfg = (true, { cfg with
      current_key_index :=
        (cfg.current_key_index + 1) % cfg.api_keys.length }) := by
  have : ¬ cfg.api_keys.length ≤ 1 := by omega
  simp [switch_to_next_key, this]

/-- Splitting the first of `fuel + 1` consecutive wrapped keys. -/
lemma range_map_keyAt_succ (L : List String) (i fuel : Nat) :
    (List.range (fuel + 1)).map (fun j => keyAt L (i + j)) =
      keyAt L i :: (List.range fuel).map (fun j => keyAt L (i + 1 + j)) := by
  rw [List.range_succ_eq_map, List.map_cons, List.map_map]
  refine congrArg₂ _ (by rw [Nat.add_zero]) ?_
  apply List.map_congr_left
  intro j _
  simp only [Function.comp_apply]
  congr 1
  omega

/-- With the stored index in range, `get_current_api_key` reads without
writing. -/
lemma get_current_api_key_in_range (cfg : GuildConfig)
    (hi : cfg.current_key_index < cfg.api_keys.length) :
    get_current_api_key cfg =
      (some (keyAt cfg.api_keys cfg.current_key_index), cfg) := by
  have hne : cfg.api_keys ≠ [] := by
    intro h
    rw [h] at hi
    simp at hi
  have hempty : ¬ cfg.api_keys.isEmpty := by simp [List.isEmpty_iff, hne]
  simp [get_current_api_key, hempty, Nat.not_le.mpr hi,
    getElem?_eq_keyAt _ _ hi]

/-- If every backend call fails with a rate-classified error, the loop
burns all its fuel: one attempt per remaining iteration, one rotation
each, ending on the exhausted message with the index advanced by
`fuel` modulo the pool size. -/
lemma generate_loop_all_rate (backend : Nat → String → CallResult)
    (L : List String) (h2 : 2 ≤ L.length)
    (hrate : ∀ n k, ∃ e, backend n k = CallResult.err e ∧
      isRateLimited e = true) :
    ∀ fuel attemptIdx i attempts rotations, i < L.length →
      generate_loop backend fuel attemptIdx (keyAt L i) ⟨L, i⟩
          attempts rotations =
        ⟨exhaustedMsg, .exhausted,
          attempts ++ (List.range fuel).map (fun j => keyAt L (i + j)),
          rotations + fuel, ⟨L, (i + fuel) % L.length⟩⟩ := by
  intro fuel
  induction fuel with
  | zero =>
    intro attemptIdx i attempts rotations hi
    simp [generate_loop, Nat.mod_eq_of_lt hi]
  | succ fuel ih =>
    intro attemptIdx i attempts rotations hi
    obtain ⟨e, he, hre⟩ := hrate attemptIdx (keyAt L i)
    have hsw := switch_to_next_key_eq ⟨L, i⟩ h2
    have hi1 : (i + 1) % L.length < L.length :=
      Nat.mod_lt _ (by omega)
    have hempty : ¬ L.isEmpty := by
      cases L with
      | nil => simp at h2
      | cons a l => simp
    have hget : get_current_api_key ⟨L, (i + 1) % L.length⟩ =
        (some (keyAt L ((i + 1) % L.length)), ⟨L, (i + 1) % L.length⟩) := by
      simp [get_current_api_key, hempty, Nat.not_le.mpr hi1,
        getElem?_eq_keyAt _ _ hi1]
    have hatt : attempts ++
        (List.range (fuel + 1)).map (fun j => keyAt L (i + j)) =
        (attempts ++ [keyAt L i]) ++
          (List.range fuel).map (fun j => keyAt L ((i + 1) % L.length + j)) := by
      have hfun : (fun j => keyAt L ((i + 1) % L.length + j)) =
          (fun j => keyAt L (i + 1 + j)) :=
        funext fun j => keyAt_add_mod L (i + 1) j
      rw [hfun, range_map_keyAt_succ, List.append_assoc,
        List.singleton_append]
    have hrot : rotations + (fuel + 1) = rotations + 1 + fuel := by omega
    have hidx : (i + (fuel + 1)) % L.length =
        ((i + 1) % L.length + fuel) % L.length := by
      rw [Nat.mod_add_mod]
      congr 1
      omega
    rw [hatt, hrot, hidx]
    simp only [generate_loop, he, hre, if_true, hsw, hget]
    exact ih (attemptIdx + 1) ((i + 1) % L.length)
      (attempts ++ [keyAt L i]) (rotations + 1) hi1

/-- **C10.** When the pool has `N ≥ 2` keys and every attempt of one
call fails rate-classified, `generate_response` attempts all `N` keys,
rotates `N` times (not `N − 1`), returns the exhausted message, and the
persisted `current_key_index` completes a full cycle back to its
starting value. -/
theorem C10_full_cycle (backend : Nat → String → CallResult)
    (cfg : GuildConfig) (h2 : 2 ≤ cfg.api_keys.length)
    (hi : cfg.current_key_index < cfg.api_keys.length)
    (hk : keyAt cfg.api_keys cfg.current_key_index ≠ "")
    (hrate : ∀ n k, ∃ e, backend n k = CallResult.err e ∧
      isRateLimited e = true) :
    generate_response backend cfg =
      ⟨exhaustedMsg, .exhausted,
        (List.range cfg.api_keys.length).map
          (fun j => keyAt cfg.api_keys (cfg.current_key_index + j)),
        cfg.api_keys.length, cfg⟩ := by
  have hg := get_current_api_key_in_range cfg hi
  have hresp : generate_response backend cfg =
      generate_loop backend cfg.api_keys.length 0
        (keyAt cfg.api_keys cfg.current_key_index) cfg [] 0 := by
    simp [generate_response, hg, hk]
  rw [hresp]
  have hloop := generate_loop_all_rate backend cfg.api_keys h2 hrate
    cfg.api_keys.length 0 cfg.current_key_index [] 0 hi
  rw [show (⟨cfg.api_keys, cfg.current_key_index⟩ : GuildConfig) = cfg
    from rfl] at hloop
  rw [hloop]
  rw [Nat.add_mod_right, Nat.mod_eq_of_lt hi]
  simp

/-- Witness for C10: two keys, every call rate-limited, starting at
index 1: both keys tried, two rotations, index back at 1. -/
theorem C10_full_cycle_witness :
    generate_response (fun _ _ => .err "rate") ⟨["a", "b"], 1⟩ =
      ⟨exhaustedMsg, .exhausted, ["b", "a"], 2, ⟨["a", "b"], 1⟩⟩ := by
  have h := C10_full_cycle (fun _ _ => .err "rate") ⟨["a", "b"], 1⟩
    (by decide) (by decide) (by decide)
    (fun n k => ⟨"rate", rfl, by decide⟩)
  rw [h]
  decide

/-- Whatever the backend does, the attempted credentials of the loop
are the consecutive wrapped keys starting at the entry index: some
prefix of length `m ≤ fuel`. -/
lemma generate_loop_attempts_run (backend : Nat → String → CallResult)
    (L : List String) :
    ∀ fuel attemptIdx i attempts rotations, i < L.length →
      ∃ m, m ≤ fuel ∧
        (generate_loop backend fuel attemptIdx (keyAt L i) ⟨L, i⟩
            attempts rotations).attempts =
          attempts ++ (List.range m).map (fun j => keyAt L (i + j)) := by
  intro fuel
  induction fuel with
  | zero =>
    intro attemptIdx i attempts rotations hi
    exact ⟨0, Nat.le_refl 0, by simp [generate_loop]⟩
  | succ fuel ih =>
    intro attemptIdx i attempts rotations hi
    have hone : attempts ++ [keyAt L i] =
        attempts ++ (List.range 1).map (fun j => keyAt L (i + j)) := by
      have hr1 : List.range 1 = [0] := rfl
      simp [hr1]
    cases hb : backend attemptIdx (keyAt L i) with
    | ok content =>
      refine ⟨1, by omega, ?_⟩
      simp only [generate_loop, hb]
      exact hone
    | err e =>
      by_cases hre : isRateLimited e
      · by_cases hlen : L.length ≤ 1
        · have hsw : switch_to_next_key ⟨L, i⟩ = (false, ⟨L, i⟩) := by
            simp [switch_to_next_key, hlen]
          refine ⟨1, by omega, ?_⟩
          simp only [generate_loop, hb, hre, if_true, hsw]
          exact hone
        · have h2 : 2 ≤ L.length := by omega
          have hsw := switch_to_next_key_eq ⟨L, i⟩ h2
          have hi1 : (i + 1) % L.length < L.length :=
            Nat.mod_lt _ (by omega)
          have hget := get_current_api_key_in_range
            ⟨L, (i + 1) % L.length⟩ hi1
          obtain ⟨m, hm, heq⟩ := ih (attemptIdx + 1) ((i + 1) % L.length)
            (attempts ++ [keyAt L i]) (rotations + 1) hi1
          refine ⟨m + 1, by omega, ?_⟩
          simp only [generate_loop, hb, hre, if_true, hsw, hget,
            Option.getD_some]
          rw [heq]
          have hfun : (fun j => keyAt L ((i + 1) % L.length + j)) =
              (fun j => keyAt L (i + 1 + j)) :=
            funext fun j => keyAt_add_mod L (i + 1) j
          rw [hfun, range_map_keyAt_succ, List.append_assoc,
            List.singleton_append]
      · refine ⟨1, by omega, ?_⟩
        simp only [generate_loop, hb, hre, if_false]
        exact hone

/-- On a duplicate-free pool, distinct in-range indices serve distinct
keys. -/
lemma keyAt_inj (L : List String) (hnd : L.Nodup) (a b : Nat)
    (ha : a < L.length) (hb : b < L.length)
    (h : keyAt L a = keyAt L b) : a = b := by
  unfold keyAt at h
  rw [Nat.mod_eq_of_lt ha, Nat.mod_eq_of_lt hb,
    List.getD_eq_getElem _ _ ha, List.getD_eq_getElem _ _ hb] at h
  exact (List.Nodup.getElem_inj_iff hnd).mp h

/-- At most one wrap's worth of consecutive keys from a duplicate-free
pool are pairwise distinct. -/
lemma range_map_keyAt_nodup (L : List String) (hnd : L.Nodup)
    (i m : Nat) (hm : m ≤ L.length) :
    ((List.range m).map (fun j => keyAt L (i + j))).Nodup := by
  refine List.Nodup.map_on ?_ (List.nodup_range m)
  intro a ha b hb hab
  rw [List.mem_range] at ha hb
  have hpos : 0 < L.length := by omega
  have hmod : ∀ x : Nat, keyAt L x = keyAt L (x % L.length) := by
    intro x
    unfold keyAt
    rw [Nat.mod_mod_of_dvd _ dvd_rfl]
  have hcast : (i + a) % L.length = (i + b) % L.length := by
    refine keyAt_inj L hnd _ _ (Nat.mod_lt _ hpos) (Nat.mod_lt _ hpos) ?_
    rw [← hmod, ← hmod]
    exact hab
  have hmeq : a % L.length = b % L.length :=
    Nat.ModEq.add_left_cancel' i hcast
  rw [Nat.mod_eq_of_lt (by omega), Nat.mod_eq_of_lt (by omega)] at hmeq
  exact hmeq

/-- The exhausted outcome only arises after burning all remaining
fuel, and then the returned text is the exhausted message. -/
lemma generate_loop_exhausted_spec (backend : Nat → String → CallResult) :
    ∀ fuel attemptIdx key cfg attempts rotations,
      (generate_loop backend fuel attemptIdx key cfg attempts
          rotations).outcome = Outcome.exhausted →
      (generate_loop backend fuel attemptIdx key cfg attempts
          rotations).text = exhaustedMsg ∧
      (generate_loop backend fuel attemptIdx key cfg attempts
          rotations).attempts.length = attempts.length + fuel := by
  intro fuel
  induction fuel with
  | zero =>
    intro attemptIdx key cfg attempts rotations _
    exact ⟨rfl, by simp [generate_loop]⟩
  | succ fuel ih =>
    intro attemptIdx key cfg attempts rotations h
    cases hb : backend attemptIdx key with
    | ok content =>
      rw [show generate_loop backend (fuel + 1) attemptIdx key cfg
          attempts rotations =
        ⟨content, .success, attempts ++ [key], rotations, cfg⟩ by
          simp [generate_loop, hb]] at h
      simp at h
    | err e =>
      by_cases hre : isRateLimited e
      · by_cases hswb : (switch_to_next_key cfg).1
        · have hred : generate_loop backend (fuel + 1) attemptIdx key cfg
              attempts rotations =
              generate_loop backend fuel (attemptIdx + 1)
                ((get_current_api_key (switch_to_next_key cfg).2).1.getD "")
                (get_current_api_key (switch_to_next_key cfg).2).2
                (attempts ++ [key]) (rotations + 1) := by
            simp [generate_loop, hb, hre, hswb]
          rw [hred] at h ⊢
          obtain ⟨ht, hl⟩ := ih _ _ _ _ _ h
          refine ⟨ht, ?_⟩
          rw [hl]
          simp
          omega
        · have hred : generate_loop backend (fuel + 1) attemptIdx key cfg
              attempts rotations =
              ⟨fatalMsg e, .fatal, attempts ++ [key], rotations,
                (switch_to_next_key cfg).2⟩ := by
            simp [generate_loop, hb, hre, hswb]
          rw [hred] at h
          simp at h
      · have hred : generate_loop backend (fuel + 1) attemptIdx key cfg
            attempts rotations =
            ⟨fatalMsg e, .fatal, attempts ++ [key], rotations, cfg⟩ := by
          simp [generate_loop, hb, hre]
        rw [hred] at h
        simp at h

/-- **C2.** On any non-empty duplicate-free pool of size `N`, one
`generate_response` call makes at most `N` backend attempts, never
passes the same credential to the backend twice, and if it exits
through the exhausted-bound return site it has made exactly `N`
attempts and returns the fixed all-keys-exhausted message. -/
theorem C2_attempt_bound (backend : Nat → String → CallResult)
    (cfg : GuildConfig) (hne : cfg.api_keys ≠ [])
    (hnd : cfg.api_keys.Nodup) :
    (generate_response backend cfg).attempts.length ≤
      cfg.api_keys.length ∧
    (generate_response backend cfg).attempts.Nodup ∧
    ((generate_response backend cfg).outcome = Outcome.exhausted →
      (generate_response backend cfg).text = exhaustedMsg ∧
      (generate_response backend cfg).attempts.length =
        cfg.api_keys.length) := by
  obtain ⟨i, hi, hspec⟩ := get_current_api_key_spec cfg hne
  by_cases hk : keyAt cfg.api_keys i = ""
  · have hr : generate_response backend cfg =
        ⟨noKeyMsg, .noKey, [], 0, ⟨cfg.api_keys, i⟩⟩ := by
      simp [generate_response, hspec, hk]
    rw [hr]
    refine ⟨by simp, by simp, by intro h; simp at h⟩
  · have hresp : generate_response backend cfg =
        generate_loop backend cfg.api_keys.length 0
          (keyAt cfg.api_keys i) ⟨cfg.api_keys, i⟩ [] 0 := by
      simp [generate_response, hspec, hk]
    obtain ⟨m, hm, heq⟩ := generate_loop_attempts_run backend
      cfg.api_keys cfg.api_keys.length 0 i [] 0 hi
    refine ⟨?_, ?_, ?_⟩
    · rw [hresp, heq]
      simp only [List.nil_append, List.length_map, List.length_range]
      exact hm
    · rw [hresp, heq]
      simpa using range_map_keyAt_nodup cfg.api_keys hnd i m hm
    · intro h
      rw [hresp] at h ⊢
      have hex := generate_loop_exhausted_spec backend
        cfg.api_keys.length 0 (keyAt cfg.api_keys i)
        ⟨cfg.api_keys, i⟩ [] 0 h
      simpa using hex

/-- Witness for C2 on a two-key pool with an immediately succeeding
backend. -/
theorem C2_attempt_bound_witness :
    (generate_response (fun _ _ => .ok "y")
      ⟨["a", "b"], 0⟩).attempts.length ≤ 2 ∧
    (generate_response (fun _ _ => .ok "y")
      ⟨["a", "b"], 0⟩).attempts.Nodup :=
  ⟨(C2_attempt_bound (fun _ _ => .ok "y") ⟨["a", "b"], 0⟩
      (by decide) (by decide)).1,
    (C2_attempt_bound (fun _ _ => .ok "y") ⟨["a", "b"], 0⟩
      (by decide) (by decide)).2.1⟩

/-- A non-rate-classified backend error ends the loop at once with the
fatal message; no rotation, no state change. -/
lemma generate_loop_fatal_nonrate (backend : Nat → String → CallResult)
    (fuel attemptIdx : Nat) (key : String) (cfg : GuildConfig)
    (attempts : List String) (rotations : Nat) (e : String)
    (hb : backend attemptIdx key = CallResult.err e)
    (hre : isRateLimited e = false) :
    generate_loop backend (fuel + 1) attemptIdx key cfg attempts
        rotations =
      ⟨fatalMsg e, .fatal, attempts ++ [key], rotations, cfg⟩ := by
  simp [generate_loop, hb, hre]

/-- A rate-classified error on a pool that cannot rotate (fewer than
two keys) also ends the loop at once with the fatal message. -/
lemma generate_loop_fatal_rate_single (backend : Nat → String → CallResult)
    (fuel attemptIdx : Nat) (key : String) (cfg : GuildConfig)
    (attempts : List String) (rotations : Nat) (e : String)
    (hb : backend attemptIdx key = CallResult.err e)
    (hre : isRateLimited e = true)
    (hlen : cfg.api_keys.length ≤ 1) :
    generate_loop backend (fuel + 1) attemptIdx key cfg attempts
        rotations =
      ⟨fatalMsg e, .fatal, attempts ++ [key], rotations, cfg⟩ := by
  have hsw : switch_to_next_key cfg = (false, cfg) := by
    simp [switch_to_next_key, hlen]
  simp [generate_loop, hb, hre, hsw]

/-- **C3.** A backend error whose text lacks the rate/limit/quota
substrings ends the call immediately with the error-prefixed message
containing the backend's error text, at any point of the loop, with no
rotation and no state change; the same holds for a rate-classified
error when rotation cannot succeed; in particular a first-attempt
non-rate error and a first-attempt rate error on a one-key pool each
yield exactly one attempt and no rotation. -/
theorem C3_fatal_errors (backend : Nat → String → CallResult)
    (cfg : GuildConfig) (e : String)
    (hi : cfg.current_key_index < cfg.api_keys.length)
    (hk : keyAt cfg.api_keys cfg.current_key_index ≠ "") :
    (∀ fuel attemptIdx key attempts rotations,
      backend attemptIdx key = CallResult.err e →
      isRateLimited e = false →
      generate_loop backend (fuel + 1) attemptIdx key cfg attempts
          rotations =
        ⟨fatalMsg e, .fatal, attempts ++ [key], rotations, cfg⟩) ∧
    (backend 0 (keyAt cfg.api_keys cfg.current_key_index) =
        CallResult.err e →
      isRateLimited e = false →
      generate_response backend cfg =
        ⟨fatalMsg e, .fatal,
          [keyAt cfg.api_keys cfg.current_key_index], 0, cfg⟩) ∧
    (cfg.api_keys.length = 1 →
      backend 0 (keyAt cfg.api_keys cfg.current_key_index) =
        CallResult.err e →
      isRateLimited e = true →
      generate_response backend cfg =
        ⟨fatalMsg e, .fatal,
          [keyAt cfg.api_keys cfg.current_key_index], 0, cfg⟩) := by
  have hg := get_current_api_key_in_range cfg hi
  have hresp : generate_response backend cfg =
      generate_loop backend cfg.api_keys.length 0
        (keyAt cfg.api_keys cfg.current_key_index) cfg [] 0 := by
    simp [generate_response, hg, hk]
  refine ⟨?_, ?_, ?_⟩
  · intro fuel attemptIdx key attempts rotations hb hre
    exact generate_loop_fatal_nonrate backend fuel attemptIdx key cfg
      attempts rotations e hb hre
  · intro hb hre
    obtain ⟨n, hn⟩ : ∃ n, cfg.api_keys.length = n + 1 :=
      ⟨cfg.api_keys.length - 1, by omega⟩
    rw [hresp, hn]
    exact generate_loop_fatal_nonrate backend n 0
      (keyAt cfg.api_keys cfg.current_key_index) cfg [] 0 e hb hre
  · intro hlen hb hre
    rw [hresp, hlen]
    exact generate_loop_fatal_rate_single backend 0 0
      (keyAt cfg.api_keys cfg.current_key_index) cfg [] 0 e hb hre
      (by omega)

/-- Witness for C3: a non-rate error on a two-key pool, and a rate
error on a one-key pool, each stop after one attempt with the fatal
message and no rotation. -/
theorem C3_fatal_errors_witness :
    generate_response (fun _ _ => .err "boom") ⟨["a", "b"], 0⟩ =
      ⟨fatalMsg "boom", .fatal, ["a"], 0, ⟨["a", "b"], 0⟩⟩ ∧
    generate_response (fun _ _ => .err "rate") ⟨["a"], 0⟩ =
      ⟨fatalMsg "rate", .fatal, ["a"], 0, ⟨["a"], 0⟩⟩ := by
  constructor
  · exact (C3_fatal_errors (fun _ _ => .err "boom") ⟨["a", "b"], 0⟩
      "boom" (by decide) (by decide)).2.1 rfl (by decide)
  · exact (C3_fatal_errors (fun _ _ => .err "rate") ⟨["a"], 0⟩
      "rate" (by decide) (by decide)).2.2 rfl rfl (by decide)

/-- **C1.** Pool of exactly three keys starting at the first: the
backend rate-fails the first two attempts and succeeds on the third.
`generate_response` makes exactly three attempts (one per key), rotates
twice, returns the third completion unmodified, and the persisted index
ends at the third key. -/
theorem C1_three_key_failover (backend : Nat → String → CallResult)
    (k1 k2 k3 e1 e2 c : String) (hk1 : k1 ≠ "")
    (hb0 : backend 0 k1 = CallResult.err e1)
    (hr1 : isRateLimited e1 = true)
    (hb1 : backend 1 k2 = CallResult.err e2)
    (hr2 : isRateLimited e2 = true)
    (hb2 : backend 2 k3 = CallResult.ok c) :
    generate_response backend ⟨[k1, k2, k3], 0⟩ =
      ⟨c, .success, [k1, k2, k3], 2, ⟨[k1, k2, k3], 2⟩⟩ := by
  have hg : get_current_api_key ⟨[k1, k2, k3], 0⟩ =
      (some k1, ⟨[k1, k2, k3], 0⟩) := rfl
  have hsw0 : switch_to_next_key ⟨[k1, k2, k3], 0⟩ =
      (true, ⟨[k1, k2, k3], 1⟩) := rfl
  have hsw1 : switch_to_next_key ⟨[k1, k2, k3], 1⟩ =
      (true, ⟨[k1, k2, k3], 2⟩) := rfl
  have hg1 : get_current_api_key ⟨[k1, k2, k3], 1⟩ =
      (some k2, ⟨[k1, k2, k3], 1⟩) := rfl
  have hg2 : get_current_api_key ⟨[k1, k2, k3], 2⟩ =
      (some k3, ⟨[k1, k2, k3], 2⟩) := rfl
  have hstart : generate_response backend ⟨[k1, k2, k3], 0⟩ =
      generate_loop backend 3 0 k1 ⟨[k1, k2, k3], 0⟩ [] 0 := by
    simp [generate_response, hg, hk1]
  rw [hstart]
  rw [show (3 : Nat) = 2 + 1 from rfl]
  simp only [generate_loop, hb0, hr1, if_true, hsw0, hg1,
    Option.getD_some]
  simp only [generate_loop, hb1, hr2, if_true, hsw1, hg2,
    Option.getD_some]
  simp [generate_loop, hb2]

/-- Witness for C1: concrete keys and a backend that rate-fails twice
then succeeds. -/
theorem C1_three_key_failover_witness :
    generate_response
      (fun i _ => if i = 0 then .err "rate" else
        if i = 1 then .err "quota" else .ok "hi")
      ⟨["a", "b", "c"], 0⟩ =
      ⟨"hi", .success, ["a", "b", "c"], 2, ⟨["a", "b", "c"], 2⟩⟩ :=
  C1_three_key_failover
    (fun i _ => if i = 0 then .err "rate" else
      if i = 1 then .err "quota" else .ok "hi")
    "a" "b" "c" "rate" "quota" "hi" (by decide) rfl (by decide) rfl
    (by decide) rfl
